import Mathlib

/-!
Verification development for the WalkPlayer batch-scheduling audio engine
(`src/app.js`, class `BatchScheduledPlayer`).

The engine is shallowly embedded: clock timestamps and track durations are
modelled as exact rationals (the source uses JS doubles; no claim under
study depends on rounding), a track is modelled by its source url string
(title and artist never reach the scheduling core), and the browser's
`AudioContext` is modelled by three state fields (`hasCtx`, `ctxRunning`,
`currentTime`).  Fetching and decoding (`fetch` + `decodeAudioData`) is an
oracle `Env.fetchDecode : String → Except String ℚ` returning the decoded
buffer's duration — the only attribute of an `AudioBuffer` the engine reads
— or a failure.  Operations that can throw return `PlayerState × Option
String`: the first component is the state of `this` when the operation
returns or when the exception escapes, the second the surfaced error.
-/

/-- One scheduled playback unit, mirroring the entries of `this.scheduled`
(`src/app.js` lines 104-107): `{ index, source, startTime, endTime,
duration, startOffset }`.  The `source` node itself has no observable
state in the model (only `stop`/`disconnect` are invoked on it, both
best-effort), so it is omitted. -/
structure Segment where
  index : Nat
  startTime : ℚ
  endTime : ℚ
  duration : ℚ
  startOffset : ℚ
deriving Repr, DecidableEq

/-- The mutable fields of `BatchScheduledPlayer` (constructor, `src/app.js`
lines 95-112) together with the modelled `AudioContext`:
`hasCtx` is `this.ctx !== null`, `ctxRunning` is `this.ctx.state ===
"running"`, `currentTime` is `this.ctx.currentTime`.  Songs are modelled
by their `file` url. -/
structure PlayerState where
  songs : List String
  idx : Nat
  hasCtx : Bool
  ctxRunning : Bool
  currentTime : ℚ
  isPlaying : Bool
  isLoading : Bool
  batchSize : Option Nat
  scheduled : List Segment
  bufferCache : List (String × ℚ)
  cacheOrder : List String
  maxCached : Nat
deriving Repr, DecidableEq

/-- The fetch-and-decode oracle: `fetch(url)` + `decodeAudioData`, returning
the decoded buffer (identified with its `duration`) or the thrown error. -/
structure Env where
  fetchDecode : String → Except String ℚ

/-- The batch size is a positive JS number or `Infinity` (modelled as
`none`; `src/unnamed/part_000` line 165 tests `batchSize === Infinity`). -/
def batchCount : Option Nat → Nat → Nat
  | none, n => n
  | some b, n => min b n

/-- Lookup in `this.bufferCache` (a JS `Map` keyed by url, modelled as an
association list in insertion order). -/
def cacheGet (cache : List (String × ℚ)) (u : String) : Option ℚ :=
  match cache.find? (fun p => p.1 == u) with
  | some p => some p.2
  | none => none

/-- The `Map.delete` call of the eviction loop. -/
def mapDelete (cache : List (String × ℚ)) (u : String) : List (String × ℚ) :=
  cache.filter (fun p => !(p.1 == u))

/-- The eviction loop of `loadDecodedBuffer` (`src/app.js` lines 307-309):
`while (this.cacheOrder.length > this.maxCached)
   this.bufferCache.delete(this.cacheOrder.shift());`. -/
def evictWhile (m : Nat) : List String → List (String × ℚ) → List String × List (String × ℚ)
  | [], cache => ([], cache)
  | o :: rest, cache =>
    if m < (o :: rest).length then evictWhile m rest (mapDelete cache o)
    else (o :: rest, cache)

/-- `loadDecodedBuffer(url)` (`src/app.js` lines 297-311): cache hit returns
the cached buffer untouched; otherwise fetch and decode via the oracle,
insert at the end of the order list and evict from the front past capacity. -/
def loadDecodedBuffer (env : Env) (url : String) (st : PlayerState) :
    PlayerState × Except String ℚ :=
  match cacheGet st.bufferCache url with
  | some buf => (st, Except.ok buf)
  | none =>
    match env.fetchDecode url with
    | Except.error e => (st, Except.error e)
    | Except.ok buf =>
      let cache1 := st.bufferCache ++ [(url, buf)]
      let order1 := st.cacheOrder ++ [url]
      let oc := evictWhile st.maxCached order1 cache1
      ({ st with bufferCache := oc.2, cacheOrder := oc.1 }, Except.ok buf)

/-- `ensureContext()` (`src/app.js` lines 114-122): create the context
lazily.  A fresh context starts its clock at `0` and (on iOS) suspended. -/
def ensureContext (st : PlayerState) : PlayerState :=
  if st.hasCtx then st
  else { st with hasCtx := true, currentTime := 0, ctxRunning := false }

/-- `stopAllScheduled()` (`src/app.js` lines 171-177): the `stop`/
`disconnect` calls are best-effort external effects; observable state
change is `this.scheduled = []`. -/
def stopAllScheduled (st : PlayerState) : PlayerState :=
  { st with scheduled := [] }

/-- `getCurrent()` (`src/app.js` lines 313-320): the first segment whose
half-open interval contains the clock, else the last segment. -/
def getCurrent (st : PlayerState) : Option Segment :=
  if !st.hasCtx || st.scheduled.isEmpty then none
  else
    match st.scheduled.find?
        (fun seg => decide (seg.startTime ≤ st.currentTime ∧ st.currentTime < seg.endTime)) with
    | some seg => some seg
    | none => st.scheduled.getLast?

/-- Result of `getProgress()` (`src/app.js` lines 323-330).  The derived
`ratio` field (a clamped quotient of `pos` and `dur`) is not modelled:
no claim under study reads it. -/
structure Progress where
  pos : ℚ
  dur : ℚ
  index : Nat
deriving Repr, DecidableEq

/-- `getProgress()` (`src/app.js` lines 323-330). -/
def getProgress (st : PlayerState) : Progress :=
  match getCurrent st with
  | none => { pos := 0, dur := 0, index := st.idx }
  | some cur =>
    { pos := cur.startOffset + max 0 (st.currentTime - cur.startTime)
      dur := cur.duration
      index := cur.index }

/-- The sequential decode loop of `rebuildBatchFrom` (`src/app.js` lines
190-194): decode every index's buffer before scheduling any.  The returned
state is the state of `this` both on success and at the moment an
exception escapes (an out-of-range index would throw a `TypeError` reading
`.file` of `undefined`). -/
def decodeAll (env : Env) : List Nat → PlayerState → PlayerState × Except String (List (Nat × ℚ))
  | [], st => (st, Except.ok [])
  | i :: rest, st =>
    match st.songs.get? i with
    | none => (st, Except.error ("TypeError"))
    | some url =>
      match loadDecodedBuffer env url st with
      | (st1, Except.error e) => (st1, Except.error e)
      | (st1, Except.ok buf) =>
        match decodeAll env rest st1 with
        | (st2, Except.error e) => (st2, Except.error e)
        | (st2, Except.ok bufs) => (st2, Except.ok ((i, buf) :: bufs))

/-- The scheduling loop of `rebuildBatchFrom` (`src/app.js` lines 199-211):
place decoded buffers back-to-back starting at `t`. -/
def scheduleSegments : ℚ → List (Nat × ℚ) → List Segment
  | _, [] => []
  | t, b :: rest =>
    { index := b.1, startTime := t, endTime := t + b.2
      duration := b.2, startOffset := 0 } :: scheduleSegments (t + b.2) rest

/-- The synchronous prefix of `rebuildBatchFrom(startIndex)` up to (not
including) its first decode `await` (`src/app.js` lines 181-188): ensure
the context, raise `isLoading`, stop the old batch, and capture the batch
indices `(startIndex + i) % songs.length` for `i < min(batchSize, n)`. -/
def rebuildPhase1 (startIndex : Nat) (st : PlayerState) : PlayerState × List Nat :=
  let st1 := ensureContext st
  let st2 := stopAllScheduled { st1 with isLoading := true }
  (st2, (List.range (batchCount st2.batchSize st2.songs.length)).map
    (fun i => (startIndex + i) % st2.songs.length))

/-- The remainder of `rebuildBatchFrom` from the first decode onward
(`src/app.js` lines 190-228): decode all captured indices, schedule them
back-to-back from `currentTime + 0.18`, push onto `this.scheduled`, set
the cursor, clear `isLoading`, and apply the `autostart` branch. -/
def rebuildPhase2 (env : Env) (startIndex : Nat) (autostart : Bool)
    (indices : List Nat) (st : PlayerState) : PlayerState × Option String :=
  match decodeAll env indices st with
  | (st4, Except.error e) => (st4, some e)
  | (st4, Except.ok buffers) =>
    let segs := scheduleSegments (st4.currentTime + 9/50) buffers
    let st5 := { st4 with scheduled := st4.scheduled ++ segs
                          idx := startIndex, isLoading := false }
    if autostart then ({ st5 with ctxRunning := true, isPlaying := true }, none)
    else ({ st5 with isPlaying := false }, none)

/-- `rebuildBatchFrom(startIndex, { autostart })` (`src/app.js` lines
180-228), the composition of the two phases. -/
def rebuildBatchFrom (env : Env) (startIndex : Nat) (autostart : Bool)
    (st : PlayerState) : PlayerState × Option String :=
  match rebuildPhase1 startIndex st with
  | (st2, indices) => rebuildPhase2 env startIndex autostart indices st2

/-- The track resolved by `seekTo` (`src/app.js` line 236): the segment
containing the clock, else the logical cursor. -/
def currentSongIdx (st : PlayerState) : Nat :=
  match getCurrent st with
  | some cur => cur.index
  | none => st.idx

/-- The remaining-slots loop of `seekTo` (`src/app.js` lines 261-274),
iterated over the loop counter values `i = 1 .. slots`: decode track
`(songIdx + i) % n` and push it at the running end time. -/
def seekLoop (env : Env) (songIdx : Nat) :
    List Nat → ℚ → PlayerState → PlayerState × Option String
  | [], _, st => (st, none)
  | i :: rest, t, st =>
    match st.songs.get? ((songIdx + i) % st.songs.length) with
    | none => (st, some ("TypeError"))
    | some url =>
      match loadDecodedBuffer env url st with
      | (st1, Except.error e) => (st1, some e)
      | (st1, Except.ok nextDur) =>
        seekLoop env songIdx rest (t + nextDur)
          { st1 with scheduled := st1.scheduled ++
              [{ index := (songIdx + i) % st.songs.length, startTime := t
                 endTime := t + nextDur, duration := nextDur, startOffset := 0 }] }

/-- `seekTo(positionSeconds)` (`src/app.js` lines 231-282): no-op while
loading; resolve the current track, decode it, clamp the offset to
`[0, duration - 0.05]` via `max(0, min(p, dur - 0.05))`, stop the batch,
schedule the current track from the offset, then
`min(batchSize - 1, n - 1)` further whole tracks; set the cursor and
resume if playing-but-suspended. -/
def seekTo (env : Env) (positionSeconds : ℚ) (st0 : PlayerState) :
    PlayerState × Option String :=
  let st1 := ensureContext st0
  if st1.isLoading then (st1, none)
  else
    match st1.songs.get? (currentSongIdx st1) with
    | none => (st1, some ("TypeError"))
    | some url =>
      match loadDecodedBuffer env url st1 with
      | (st2, Except.error e) => (st2, some e)
      | (st2, Except.ok trackDur) =>
        let offset := max 0 (min positionSeconds (trackDur - 1/20))
        let st3 := stopAllScheduled st2
        let startAt := st3.currentTime + 1/20
        let st4 := { st3 with scheduled := st3.scheduled ++
            [{ index := currentSongIdx st1, startTime := startAt
               endTime := startAt + (trackDur - offset)
               duration := trackDur, startOffset := offset }] }
        let slots := match st4.batchSize with
          | none => st4.songs.length - 1
          | some b => min (b - 1) (st4.songs.length - 1)
        match seekLoop env (currentSongIdx st1) (List.range' 1 slots)
            (startAt + (trackDur - offset)) st4 with
        | (st5, some e) => (st5, some e)
        | (st5, none) =>
          let st6 := { st5 with idx := currentSongIdx st1 }
          if st6.isPlaying && !st6.ctxRunning then ({ st6 with ctxRunning := true }, none)
          else (st6, none)

/-- `next()` (`src/app.js` lines 152-157). -/
def next (env : Env) (st : PlayerState) : PlayerState × Option String :=
  rebuildBatchFrom env ((st.idx + 1) % st.songs.length)
    (st.isPlaying || (st.hasCtx && st.ctxRunning))
    { st with idx := (st.idx + 1) % st.songs.length }

/-- `seekRelative(deltaSeconds)` (`src/app.js` lines 285-295). -/
def seekRelative (env : Env) (deltaSeconds : ℚ) (st : PlayerState) :
    PlayerState × Option String :=
  if (getProgress st).pos + deltaSeconds < 0 then seekTo env 0 st
  else if (getProgress st).dur ≤ (getProgress st).pos + deltaSeconds then next env st
  else seekTo env ((getProgress st).pos + deltaSeconds) st

/-- The go-to-previous-track branch of `prev()` (`src/app.js` lines
165-168): `idx = (idx - 1 + n) % n`, rebuild from there. -/
def prevRebuild (env : Env) (st : PlayerState) : PlayerState × Option String :=
  rebuildBatchFrom env ((st.idx + st.songs.length - 1) % st.songs.length)
    (st.isPlaying || (st.hasCtx && st.ctxRunning))
    { st with idx := (st.idx + st.songs.length - 1) % st.songs.length }

/-- `prev()` (`src/app.js` lines 159-169): restart the current track when
more than 3 clock seconds of its segment have elapsed, else step back. -/
def prev (env : Env) (st : PlayerState) : PlayerState × Option String :=
  match getCurrent st with
  | some cur =>
    if 3 < st.currentTime - cur.startTime then rebuildBatchFrom env cur.index true st
    else prevRebuild env st
  | none => prevRebuild env st

/-- Insertion of a list of keys through `loadDecodedBuffer`, the scenario
driver for the cache-eviction claim. -/
def insertAll (env : Env) (ks : List String) (st : PlayerState) : PlayerState :=
  ks.foldl (fun s k => (loadDecodedBuffer env k s).1) st

/-- An environment in which every fetch and decode succeeds. -/
def EnvOk (env : Env) : Prop := ∀ u, ∃ d, env.fetchDecode u = Except.ok d

/-- Every cached buffer agrees with what the oracle would return for its
key (holds for every state reachable from an empty cache under a fixed
oracle, since entries are only ever inserted with the oracle's value). -/
def CacheOk (env : Env) (st : PlayerState) : Prop :=
  ∀ p ∈ st.bufferCache, env.fetchDecode p.1 = Except.ok p.2

/-- Segments placed back-to-back starting at a given clock time. -/
def chainFrom : ℚ → List Segment → Prop
  | _, [] => True
  | t, seg :: rest => seg.startTime = t ∧ chainFrom seg.endTime rest

/-! ### Frame and success lemmas for the cache layer -/

/-- `loadDecodedBuffer` touches only the two cache fields. -/
theorem load_core (env : Env) (u : String) (st : PlayerState) :
    ∃ bc co, (loadDecodedBuffer env u st).1 =
      { st with bufferCache := bc, cacheOrder := co } := by
  unfold loadDecodedBuffer
  split
  · exact ⟨st.bufferCache, st.cacheOrder, rfl⟩
  · split
    · exact ⟨st.bufferCache, st.cacheOrder, rfl⟩
    · exact ⟨_, _, rfl⟩

/-- `ensureContext` touches only the three context fields, and afterwards a
context exists. -/
theorem ensureContext_frame (st : PlayerState) :
    (ensureContext st).songs = st.songs ∧ (ensureContext st).idx = st.idx ∧
    (ensureContext st).isPlaying = st.isPlaying ∧
    (ensureContext st).isLoading = st.isLoading ∧
    (ensureContext st).batchSize = st.batchSize ∧
    (ensureContext st).scheduled = st.scheduled ∧
    (ensureContext st).bufferCache = st.bufferCache ∧
    (ensureContext st).cacheOrder = st.cacheOrder ∧
    (ensureContext st).maxCached = st.maxCached ∧
    (ensureContext st).hasCtx = true := by
  unfold ensureContext
  split <;> simp_all

/-- A successful cache lookup exhibits a cache entry. -/
theorem cacheGet_mem (cache : List (String × ℚ)) (u : String) (v : ℚ)
    (h : cacheGet cache u = some v) : (u, v) ∈ cache := by
  unfold cacheGet at h
  split at h
  · rename_i p hp
    have hmem := List.mem_of_find?_eq_some hp
    have hpred := List.find?_some hp
    have hkey : p.1 = u := by simpa using hpred
    cases h
    have : p = (u, p.2) := by
      cases p; simp_all
    rw [this] at hmem
    exact hmem
  · cases h

/-- Eviction only ever removes cache entries. -/
theorem evictWhile_cache_subset (m : Nat) :
    ∀ (o : List String) (c : List (String × ℚ)) (p : String × ℚ),
      p ∈ (evictWhile m o c).2 → p ∈ c := by
  intro o
  induction o with
  | nil => intro c p hp; simpa [evictWhile] using hp
  | cons a rest ih =>
    intro c p hp
    unfold evictWhile at hp
    split at hp
    · exact List.mem_of_mem_filter (ih (mapDelete c a) p hp)
    · exact hp

/-- Under a fully successful oracle and an oracle-consistent cache,
`loadDecodedBuffer` succeeds and returns exactly the oracle's buffer. -/
theorem load_ok (env : Env) (u : String) (st : PlayerState)
    (hok : EnvOk env) (hc : CacheOk env st) :
    ∃ d st1, loadDecodedBuffer env u st = (st1, Except.ok d) ∧
      env.fetchDecode u = Except.ok d ∧ CacheOk env st1 := by
  unfold loadDecodedBuffer
  split
  · rename_i v hv
    have hm := cacheGet_mem st.bufferCache u v hv
    exact ⟨v, st, rfl, hc (u, v) hm, hc⟩
  · rename_i hmiss
    obtain ⟨d, hd⟩ := hok u
    rw [hd]
    refine ⟨d, _, rfl, rfl, ?_⟩
    intro p hp
    have hp1 : p ∈ st.bufferCache ++ [(u, d)] :=
      evictWhile_cache_subset st.maxCached _ _ p hp
    rcases List.mem_append.mp hp1 with h1 | h1
    · exact hc p h1
    · simp at h1
      rw [h1, hd]

/-- `decodeAll` touches only the two cache fields. -/
theorem decodeAll_core (env : Env) :
    ∀ (l : List Nat) (st : PlayerState),
    ∃ bc co, (decodeAll env l st).1 =
      { st with bufferCache := bc, cacheOrder := co } := by
  intro l
  induction l with
  | nil => intro st; exact ⟨st.bufferCache, st.cacheOrder, rfl⟩
  | cons i rest ih =>
    intro st
    unfold decodeAll
    split
    · exact ⟨st.bufferCache, st.cacheOrder, rfl⟩
    · rename_i url hurl
      obtain ⟨bc1, co1, h1⟩ := load_core env url st
      split
      · rename_i st1 e heq
        rw [heq] at h1
        exact ⟨bc1, co1, h1⟩
      · rename_i st1 buf heq
        rw [heq] at h1
        have h1' : st1 = { st with bufferCache := bc1, cacheOrder := co1 } := h1
        obtain ⟨bc2, co2, h2⟩ := ih st1
        split
        · rename_i st2 e2 heq2
          rw [heq2] at h2
          have h2' : st2 = { st1 with bufferCache := bc2, cacheOrder := co2 } := h2
          refine ⟨bc2, co2, ?_⟩
          rw [h2', h1']
        · rename_i st2 bufs heq2
          rw [heq2] at h2
          have h2' : st2 = { st1 with bufferCache := bc2, cacheOrder := co2 } := h2
          refine ⟨bc2, co2, ?_⟩
          rw [h2', h1']

/-- Under a fully successful oracle, `decodeAll` succeeds and returns one
buffer per requested index, in order. -/
theorem decodeAll_ok (env : Env) (hok : EnvOk env) :
    ∀ (l : List Nat) (st : PlayerState), CacheOk env st →
    (∀ i ∈ l, i < st.songs.length) →
    ∃ bufs st2, decodeAll env l st = (st2, Except.ok bufs) ∧
      bufs.map Prod.fst = l ∧ CacheOk env st2 := by
  intro l
  induction l with
  | nil => intro st hc _; exact ⟨[], st, rfl, rfl, hc⟩
  | cons i rest ih =>
    intro st hc hlt
    have hi : i < st.songs.length := hlt i (List.mem_cons_self i rest)
    have hurl : st.songs.get? i = some (st.songs.get ⟨i, hi⟩) := List.get?_eq_get hi
    obtain ⟨d, st1, hload, hfd, hc1⟩ := load_ok env (st.songs.get ⟨i, hi⟩) st hok hc
    obtain ⟨bc1, co1, hcore⟩ := load_core env (st.songs.get ⟨i, hi⟩) st
    rw [hload] at hcore
    have hcore1 : st1 = { st with bufferCache := bc1, cacheOrder := co1 } := hcore
    have hsongs1 : st1.songs = st.songs := by rw [hcore1]
    have hrest : ∀ j ∈ rest, j < st1.songs.length := by
      intro j hj; rw [hsongs1]; exact hlt j (List.mem_cons_of_mem i hj)
    obtain ⟨bufs, st2, hdec, hmap, hc2⟩ := ih st1 hc1 hrest
    refine ⟨(i, d) :: bufs, st2, ?_, by simp [hmap], hc2⟩
    unfold decodeAll
    rw [hurl]
    simp only [hload, hdec]

/-! ### Properties of the scheduling loop -/

theorem scheduleSegments_length :
    ∀ (bs : List (Nat × ℚ)) (t : ℚ), (scheduleSegments t bs).length = bs.length := by
  intro bs
  induction bs with
  | nil => intro t; rfl
  | cons b rest ih => intro t; simp [scheduleSegments, ih]

theorem scheduleSegments_offset :
    ∀ (bs : List (Nat × ℚ)) (t : ℚ), ∀ seg ∈ scheduleSegments t bs, seg.startOffset = 0 := by
  intro bs
  induction bs with
  | nil => intro t seg h; simp [scheduleSegments] at h
  | cons b rest ih =>
    intro t seg h
    rcases (List.mem_cons.mp h) with h1 | h1
    · rw [h1]
    · exact ih (t + b.2) seg h1

theorem scheduleSegments_inv :
    ∀ (bs : List (Nat × ℚ)) (t : ℚ), ∀ seg ∈ scheduleSegments t bs,
      seg.endTime = seg.startTime + (seg.duration - seg.startOffset) := by
  intro bs
  induction bs with
  | nil => intro t seg h; simp [scheduleSegments] at h
  | cons b rest ih =>
    intro t seg h
    rcases (List.mem_cons.mp h) with h1 | h1
    · rw [h1]; simp
    · exact ih (t + b.2) seg h1

theorem scheduleSegments_chain :
    ∀ (bs : List (Nat × ℚ)) (t : ℚ), chainFrom t (scheduleSegments t bs) := by
  intro bs
  induction bs with
  | nil => intro t; trivial
  | cons b rest ih => intro t; exact ⟨rfl, ih (t + b.2)⟩

theorem scheduleSegments_index :
    ∀ (bs : List (Nat × ℚ)) (t : ℚ) (i : Nat),
      ((scheduleSegments t bs).get? i).map Segment.index = (bs.get? i).map Prod.fst := by
  intro bs
  induction bs with
  | nil => intro t i; rfl
  | cons b rest ih =>
    intro t i
    cases i with
    | zero => rfl
    | succ j => exact ih (t + b.2) j

/-- Back-to-back placement gives the contiguity equation of the spec. -/
theorem chainFrom_contig :
    ∀ (l : List Segment) (t : ℚ), chainFrom t l →
      ∀ i (hi : i + 1 < l.length),
        (l.get ⟨i, Nat.lt_of_succ_lt hi⟩).endTime = (l.get ⟨i + 1, hi⟩).startTime := by
  intro l
  induction l with
  | nil => intro t _ i hi; simp at hi
  | cons a rest ih =>
    intro t hch i hi
    obtain ⟨ha, hrest⟩ := hch
    cases i with
    | zero =>
      simp only [List.length_cons, Nat.zero_add] at hi
      cases rest with
      | nil => simp at hi
      | cons b rest2 =>
        obtain ⟨hb, _⟩ := hrest
        simpa using hb.symm
    | succ j =>
      have hj : j + 1 < rest.length := by simpa using hi
      simpa using ih a.endTime hrest j hj

/-- Every segment of a back-to-back chain starting at `t` starts at `t`
plus the summed lengths of the segments before it; in particular the head
starts at `t`. -/
theorem chainFrom_head :
    ∀ (l : List Segment) (t : ℚ), chainFrom t l →
      ∀ (h0 : 0 < l.length), (l.get ⟨0, h0⟩).startTime = t := by
  intro l t hch h0
  cases l with
  | nil => simp at h0
  | cons a rest => exact hch.1

/-! ### The rebuild algorithm under a successful oracle -/

/-- Core success lemma for the decode-then-schedule phase: it appends one
fresh, back-to-back segment per requested index (in order, each with
`startOffset = 0`) and otherwise performs only the documented state
updates. -/
theorem rebuildPhase2_ok (env : Env) (s : Nat) (a : Bool) (l : List Nat)
    (st : PlayerState) (hok : EnvOk env) (hc : CacheOk env st)
    (hl : ∀ i ∈ l, i < st.songs.length) :
    ∃ st2 segs, rebuildPhase2 env s a l st = (st2, none) ∧
      st2.scheduled = st.scheduled ++ segs ∧
      segs.length = l.length ∧
      chainFrom (st.currentTime + 9/50) segs ∧
      (∀ i, (segs.get? i).map Segment.index = l.get? i) ∧
      (∀ seg ∈ segs, seg.startOffset = 0) ∧
      (∀ seg ∈ segs, seg.endTime = seg.startTime + (seg.duration - seg.startOffset)) ∧
      st2.songs = st.songs ∧ st2.idx = s ∧ st2.isLoading = false ∧
      st2.batchSize = st.batchSize ∧ st2.currentTime = st.currentTime ∧
      st2.maxCached = st.maxCached ∧ st2.hasCtx = st.hasCtx ∧
      st2.isPlaying = a ∧ CacheOk env st2 := by
  obtain ⟨bufs, st4, hdec, hmap, hc4⟩ := decodeAll_ok env hok l st hc hl
  obtain ⟨bc, co, hcore⟩ := decodeAll_core env l st
  rw [hdec] at hcore
  have h4 : st4 = { st with bufferCache := bc, cacheOrder := co } := hcore
  have hct : st4.currentTime = st.currentTime := by rw [h4]
  have hsch : st4.scheduled = st.scheduled := by rw [h4]
  have hsongs : st4.songs = st.songs := by rw [h4]
  have hbs : st4.batchSize = st.batchSize := by rw [h4]
  have hmx : st4.maxCached = st.maxCached := by rw [h4]
  have hhc : st4.hasCtx = st.hasCtx := by rw [h4]
  cases a with
  | false =>
    refine ⟨{ st4 with
        scheduled := st4.scheduled ++ scheduleSegments (st4.currentTime + 9/50) bufs
        idx := s, isLoading := false, isPlaying := false },
      scheduleSegments (st4.currentTime + 9/50) bufs,
      ?_, ?_, ?_, ?_, ?_, ?_, ?_, ?_, ?_, ?_, ?_, ?_, ?_, ?_, ?_, ?_⟩
    · unfold rebuildPhase2; rw [hdec]; rfl
    · simp [hsch]
    · rw [scheduleSegments_length, ← hmap, List.length_map]
    · rw [hct]; exact scheduleSegments_chain bufs _
    · intro i; rw [scheduleSegments_index, ← hmap, List.get?_map]
    · exact scheduleSegments_offset bufs _
    · exact scheduleSegments_inv bufs _
    · simpa using hsongs
    · rfl
    · rfl
    · simpa using hbs
    · simpa using hct
    · simpa using hmx
    · simpa using hhc
    · rfl
    · exact fun p hp => hc4 p hp
  | true =>
    refine ⟨{ st4 with
        scheduled := st4.scheduled ++ scheduleSegments (st4.currentTime + 9/50) bufs
        idx := s, isLoading := false, ctxRunning := true, isPlaying := true },
      scheduleSegments (st4.currentTime + 9/50) bufs,
      ?_, ?_, ?_, ?_, ?_, ?_, ?_, ?_, ?_, ?_, ?_, ?_, ?_, ?_, ?_, ?_⟩
    · unfold rebuildPhase2; rw [hdec]; rfl
    · simp [hsch]
    · rw [scheduleSegments_length, ← hmap, List.length_map]
    · rw [hct]; exact scheduleSegments_chain bufs _
    · intro i; rw [scheduleSegments_index, ← hmap, List.get?_map]
    · exact scheduleSegments_offset bufs _
    · exact scheduleSegments_inv bufs _
    · simpa using hsongs
    · rfl
    · rfl
    · simpa using hbs
    · simpa using hct
    · simpa using hmx
    · simpa using hhc
    · rfl
    · exact fun p hp => hc4 p hp

/-- Observable effect of the synchronous rebuild prefix. -/
theorem rebuildPhase1_spec (s : Nat) (st : PlayerState) :
    (rebuildPhase1 s st).1.songs = st.songs ∧
    (rebuildPhase1 s st).1.scheduled = [] ∧
    (rebuildPhase1 s st).1.isLoading = true ∧
    (rebuildPhase1 s st).1.batchSize = st.batchSize ∧
    (rebuildPhase1 s st).1.bufferCache = st.bufferCache ∧
    (rebuildPhase1 s st).1.cacheOrder = st.cacheOrder ∧
    (rebuildPhase1 s st).1.maxCached = st.maxCached ∧
    (rebuildPhase1 s st).1.currentTime = (ensureContext st).currentTime ∧
    (rebuildPhase1 s st).1.hasCtx = true ∧
    (rebuildPhase1 s st).1.isPlaying = st.isPlaying ∧
    (rebuildPhase1 s st).2 =
      (List.range (batchCount st.batchSize st.songs.length)).map
        (fun i => (s + i) % st.songs.length) := by
  obtain ⟨h1, h2, h3, h4, h5, h6, h7, h8, h9, h10⟩ := ensureContext_frame st
  unfold rebuildPhase1 stopAllScheduled
  simp [h1, h3, h5, h7, h8, h9, h10]

/-- Success specification of `rebuildBatchFrom`: with every fetch/decode
succeeding, exactly `min(batchSize, n)` fresh segments are placed
back-to-back from `(s + i) % n`, all with `startOffset = 0`, the cursor
moves to `s`, and the loading flag is cleared. -/
theorem rebuild_ok (env : Env) (s : Nat) (a : Bool) (st : PlayerState)
    (hok : EnvOk env) (hc : CacheOk env st) (hn : 1 ≤ st.songs.length) :
    ∃ st2, rebuildBatchFrom env s a st = (st2, none) ∧
      st2.scheduled.length = batchCount st.batchSize st.songs.length ∧
      (∀ i (hi : i < st2.scheduled.length),
        (st2.scheduled.get ⟨i, hi⟩).index = (s + i) % st.songs.length) ∧
      chainFrom ((ensureContext st).currentTime + 9/50) st2.scheduled ∧
      (∀ seg ∈ st2.scheduled, seg.startOffset = 0) ∧
      (∀ seg ∈ st2.scheduled, seg.endTime = seg.startTime + (seg.duration - seg.startOffset)) ∧
      st2.songs = st.songs ∧ st2.idx = s ∧ st2.isLoading = false ∧
      st2.isPlaying = a ∧ st2.batchSize = st.batchSize ∧ CacheOk env st2 := by
  obtain ⟨p1, p2, p3, p4, p5, p6, p7, p8, p9, p10, p11⟩ := rebuildPhase1_spec s st
  have hcp : CacheOk env (rebuildPhase1 s st).1 := by
    intro q hq
    exact hc q (by rw [← p5]; exact hq)
  have hl : ∀ i ∈ (rebuildPhase1 s st).2, i < (rebuildPhase1 s st).1.songs.length := by
    intro i hi
    rw [p11] at hi
    obtain ⟨j, hj, hji⟩ := List.mem_map.mp hi
    rw [← hji, p1]
    exact Nat.mod_lt _ (Nat.lt_of_lt_of_le Nat.zero_lt_one hn)
  obtain ⟨st2, segs, q1, q2, q3, q4, q5, q6, q7, q8, q9, q10, q11, q12, q13, q14, q15, q16⟩ :=
    rebuildPhase2_ok env s a (rebuildPhase1 s st).2 (rebuildPhase1 s st).1 hok hcp hl
  have hrw : rebuildBatchFrom env s a st =
      rebuildPhase2 env s a (rebuildPhase1 s st).2 (rebuildPhase1 s st).1 := rfl
  have hsegs : st2.scheduled = segs := by rw [q2, p2]; simp
  have hlen : st2.scheduled.length = batchCount st.batchSize st.songs.length := by
    rw [hsegs, q3, p11, List.length_map, List.length_range]
  refine ⟨st2, by rw [hrw, q1], hlen, ?_, ?_, ?_, ?_, ?_, ?_, ?_, ?_, ?_, q16⟩
  · intro i hi
    have hi2 : i < batchCount st.batchSize st.songs.length := by rw [← hlen]; exact hi
    have h1 : (st2.scheduled.get? i).map Segment.index = (rebuildPhase1 s st).2.get? i := by
      rw [hsegs]; exact q5 i
    rw [List.get?_eq_get hi] at h1
    rw [p11, List.get?_map, List.get?_range hi2] at h1
    simpa using h1
  · rw [hsegs, ← p8]; exact q4
  · rw [hsegs]; exact q6
  · rw [hsegs]; exact q7
  · rw [q8, p1]
  · exact q9
  · exact q10
  · exact q15
  · rw [q11, p4]

/-! ### Shared concrete fixtures for witnesses -/

/-- An oracle in which every track fetches and decodes to a 10-second
buffer. -/
def sampleEnv : Env := { fetchDecode := fun _ => Except.ok 10 }

/-- A three-track player with batch size 2, a live running context and an
empty cache. -/
def sampleState : PlayerState :=
  { songs := ["a", "b", "c"], idx := 0, hasCtx := true, ctxRunning := true
    currentTime := 0, isPlaying := true, isLoading := false
    batchSize := some 2, scheduled := [], bufferCache := [], cacheOrder := []
    maxCached := 8 }

theorem sampleEnv_ok : EnvOk sampleEnv := fun _ => ⟨10, rfl⟩

theorem cacheOk_nil (env : Env) (st : PlayerState) (h : st.bufferCache = []) :
    CacheOk env st := by
  intro q hq
  rw [h] at hq
  simp at hq

/-- A stale segment used to populate a pre-existing batch in witnesses. -/
def dummySeg : Segment :=
  { index := 2, startTime := 1, endTime := 4, duration := 3, startOffset := 0 }

/-- C1: for every playlist of length `n ≥ 1`, every configured batch size
(including unbounded, modelled by `none`) and every start index
`s ∈ [0, n)`, `rebuildBatchFrom(s)` produces exactly `min(b, n)` segments
(`n` for the unbounded size) whose `index` sequence is `(s, s+1, …) mod n`,
contiguous with no gaps (`segments[i].endTime = segments[i+1].startTime`),
every segment having `startOffset = 0`.  Decoding is assumed to succeed
(`EnvOk`; `CacheOk` says cached entries agree with the oracle, which holds
for any state grown from an empty cache). -/
theorem rebuild_batch_shape (env : Env) (st : PlayerState) (s : Nat) (a : Bool)
    (hok : EnvOk env) (hc : CacheOk env st)
    (hn : 1 ≤ st.songs.length) (hs : s < st.songs.length)
    (hb : 1 ≤ batchCount st.batchSize st.songs.length) :
    ∃ st2, rebuildBatchFrom env s a st = (st2, none) ∧
      st2.scheduled.length = batchCount st.batchSize st.songs.length ∧
      (∀ b, st.batchSize = some b → st2.scheduled.length = min b st.songs.length) ∧
      (st.batchSize = none → st2.scheduled.length = st.songs.length) ∧
      (∀ i (hi : i < st2.scheduled.length),
        (st2.scheduled.get ⟨i, hi⟩).index = (s + i) % st.songs.length) ∧
      (∀ i (hi : i + 1 < st2.scheduled.length),
        (st2.scheduled.get ⟨i, Nat.lt_of_succ_lt hi⟩).endTime =
          (st2.scheduled.get ⟨i + 1, hi⟩).startTime) ∧
      (∀ seg ∈ st2.scheduled, seg.startOffset = 0) := by
  obtain ⟨st2, h1, h2, h3, h4, h5, h6, h7, h8, h9, h10, h11, h12⟩ :=
    rebuild_ok env s a st hok hc hn
  refine ⟨st2, h1, h2, ?_, ?_, h3, ?_, h5⟩
  · intro b hbs
    rw [h2, hbs]
    rfl
  · intro hbs
    rw [h2, hbs]
    rfl
  · exact chainFrom_contig st2.scheduled _ h4

/-- Witness: the concrete three-track player with batch size 2 rebuilt from
index 1 yields exactly two segments. -/
theorem rebuild_batch_shape_witness :
    ∃ st2, rebuildBatchFrom sampleEnv 1 true sampleState = (st2, none) ∧
      st2.scheduled.length = 2 := by
  obtain ⟨st2, h1, h2, _⟩ := rebuild_batch_shape sampleEnv sampleState 1 true
    sampleEnv_ok (cacheOk_nil sampleEnv sampleState rfl) (by decide) (by decide) (by decide)
  exact ⟨st2, h1, by rw [h2]; decide⟩

/-! ### C2: the segment timing invariant and batch replacement -/

/-- On every path (success or error), the decode-then-schedule phase leaves
the incoming batch either untouched or extended by freshly built segments. -/
theorem rebuildPhase2_scheduled (env : Env) (s : Nat) (a : Bool) (l : List Nat)
    (st : PlayerState) :
    (rebuildPhase2 env s a l st).1.scheduled = st.scheduled ∨
    ∃ bufs, (rebuildPhase2 env s a l st).1.scheduled =
      st.scheduled ++ scheduleSegments (st.currentTime + 9/50) bufs := by
  unfold rebuildPhase2
  obtain ⟨bc, co, hcore⟩ := decodeAll_core env l st
  split
  · rename_i st4 e heq
    rw [heq] at hcore
    have h4 : st4 = { st with bufferCache := bc, cacheOrder := co } := hcore
    left
    rw [h4]
  · rename_i st4 bufs heq
    rw [heq] at hcore
    have h4 : st4 = { st with bufferCache := bc, cacheOrder := co } := hcore
    right
    refine ⟨bufs, ?_⟩
    cases a <;> simp [h4]

/-- Every segment scheduled by a rebuild satisfies the timing invariant. -/
theorem rebuild_inv_all (env : Env) (s : Nat) (a : Bool) (st : PlayerState) :
    ∀ seg ∈ (rebuildBatchFrom env s a st).1.scheduled,
      seg.endTime = seg.startTime + (seg.duration - seg.startOffset) := by
  intro seg hseg
  have hre : rebuildBatchFrom env s a st =
      rebuildPhase2 env s a (rebuildPhase1 s st).2 (rebuildPhase1 s st).1 := rfl
  rw [hre] at hseg
  obtain ⟨_, hp2, _⟩ := rebuildPhase1_spec s st
  rcases rebuildPhase2_scheduled env s a (rebuildPhase1 s st).2 (rebuildPhase1 s st).1
    with h | ⟨bufs, h⟩
  · rw [h, hp2] at hseg
    simp at hseg
  · rw [h, hp2] at hseg
    simp only [List.nil_append] at hseg
    exact scheduleSegments_inv bufs _ seg hseg

/-- The `seekTo` slot loop preserves the timing invariant over the batch. -/
theorem seekLoop_inv (env : Env) (si : Nat) :
    ∀ (l : List Nat) (t : ℚ) (st : PlayerState),
    (∀ seg ∈ st.scheduled, seg.endTime = seg.startTime + (seg.duration - seg.startOffset)) →
    ∀ seg ∈ (seekLoop env si l t st).1.scheduled,
      seg.endTime = seg.startTime + (seg.duration - seg.startOffset) := by
  intro l
  induction l with
  | nil => intro t st h seg hseg; exact h seg hseg
  | cons i rest ih =>
    intro t st h seg hseg
    unfold seekLoop at hseg
    split at hseg
    · exact h seg hseg
    · rename_i url hurl
      split at hseg
      · rename_i st1 e heq
        obtain ⟨bc, co, hcore⟩ := load_core env url st
        rw [heq] at hcore
        have h1 : st1 = { st with bufferCache := bc, cacheOrder := co } := hcore
        apply h
        rw [h1] at hseg
        exact hseg
      · rename_i st1 nextDur heq
        obtain ⟨bc, co, hcore⟩ := load_core env url st
        rw [heq] at hcore
        have h1 : st1 = { st with bufferCache := bc, cacheOrder := co } := hcore
        refine ih (t + nextDur) _ ?_ seg hseg
        intro sg hsg
        rcases List.mem_append.mp hsg with h2 | h2
        · apply h
          rw [h1] at h2
          exact h2
        · simp at h2
          rw [h2]
          simp

/-- Equation form of `seekLoop_inv`, convenient after `split`. -/
theorem seekLoop_inv_of_eq (env : Env) (si : Nat) (l : List Nat) (t : ℚ)
    (st st5 : PlayerState) (r : Option String)
    (heq : seekLoop env si l t st = (st5, r))
    (hbase : ∀ sg ∈ st.scheduled,
      sg.endTime = sg.startTime + (sg.duration - sg.startOffset)) :
    ∀ seg ∈ st5.scheduled,
      seg.endTime = seg.startTime + (seg.duration - seg.startOffset) := by
  intro seg hseg
  refine seekLoop_inv env si l t st hbase seg ?_
  rw [heq]
  exact hseg

/-- Every segment of the batch after `seekTo` is either a leftover of the
previous batch (only possible on the early-return paths, which do not
touch the batch) or a freshly created segment satisfying the invariant. -/
theorem seekTo_inv_all (env : Env) (p : ℚ) (st : PlayerState) :
    ∀ seg ∈ (seekTo env p st).1.scheduled,
      seg ∈ st.scheduled ∨
        seg.endTime = seg.startTime + (seg.duration - seg.startOffset) := by
  intro seg hseg
  obtain ⟨c1, c2, c3, c4, c5, c6, c7, c8, c9, c10⟩ := ensureContext_frame st
  simp only [seekTo] at hseg
  split at hseg
  · left
    rw [← c6]
    exact hseg
  · split at hseg
    · left
      rw [← c6]
      exact hseg
    · rename_i url hurl
      split at hseg
      · rename_i st2 e heq
        obtain ⟨bc, co, hcore⟩ := load_core env url (ensureContext st)
        rw [heq] at hcore
        have h2 : st2 = { ensureContext st with bufferCache := bc, cacheOrder := co } := hcore
        left
        rw [h2] at hseg
        rw [← c6]
        exact hseg
      · rename_i st2 trackDur heq
        right
        obtain ⟨bc, co, hcore⟩ := load_core env url (ensureContext st)
        rw [heq] at hcore
        have h2 : st2 = { ensureContext st with bufferCache := bc, cacheOrder := co } := hcore
        split at hseg
        · rename_i st5 e heq5
          exact seekLoop_inv_of_eq env _ _ _ _ _ _ heq5 (fun sg hsg => by simp_all [stopAllScheduled]) seg hseg
        · rename_i st5 heq5
          split at hseg <;>
            exact seekLoop_inv_of_eq env _ _ _ _ _ _ heq5 (fun sg hsg => by simp_all [stopAllScheduled]) seg hseg

/-- A rebuild replaces the whole batch: its entire result is independent of
whatever segments were scheduled before. -/
theorem rebuild_ignores_old_batch (env : Env) (s : Nat) (a : Bool)
    (st : PlayerState) (s0 : List Segment) :
    rebuildBatchFrom env s a { st with scheduled := s0 } =
      rebuildBatchFrom env s a { st with scheduled := [] } := by
  have h : rebuildPhase1 s { st with scheduled := s0 } =
      rebuildPhase1 s { st with scheduled := [] } := by
    unfold rebuildPhase1 stopAllScheduled ensureContext
    cases hct : st.hasCtx <;> simp [hct]
  have e1 : rebuildBatchFrom env s a { st with scheduled := s0 } =
      rebuildPhase2 env s a (rebuildPhase1 s { st with scheduled := s0 }).2
        (rebuildPhase1 s { st with scheduled := s0 }).1 := rfl
  have e2 : rebuildBatchFrom env s a { st with scheduled := [] } =
      rebuildPhase2 env s a (rebuildPhase1 s { st with scheduled := [] }).2
        (rebuildPhase1 s { st with scheduled := [] }).1 := rfl
  rw [e1, e2, h]

/-- C2: every segment placed by a scheduling operation (rebuild or seek)
satisfies `endTime = startTime + (duration - startOffset)`, and segments
are never mutated after creation: a rebuild replaces the whole batch (its
result does not depend on the previously scheduled segments), and every
segment in the batch after a seek is either an untouched leftover of an
early-return path or a fresh segment satisfying the invariant. -/
theorem segment_invariant_and_replacement (env : Env) (s : Nat) (a : Bool)
    (p : ℚ) (st : PlayerState) (s0 : List Segment) :
    ((rebuildBatchFrom env s a st).1.scheduled.Forall
      (fun seg => seg.endTime = seg.startTime + (seg.duration - seg.startOffset))) ∧
    ((seekTo env p st).1.scheduled.Forall
      (fun seg => seg ∈ st.scheduled ∨
        seg.endTime = seg.startTime + (seg.duration - seg.startOffset))) ∧
    rebuildBatchFrom env s a { st with scheduled := s0 } =
      rebuildBatchFrom env s a { st with scheduled := [] } :=
  ⟨List.forall_iff_forall_mem.mpr (rebuild_inv_all env s a st),
   List.forall_iff_forall_mem.mpr (seekTo_inv_all env p st),
   rebuild_ignores_old_batch env s a st s0⟩

/-! ### C4: seekRelative case analysis -/

/-- C4: `seekRelative(d)` with current progress `(pos, dur)` behaves exactly
as `seekTo(0)` when `pos + d < 0`, exactly as `next()` when
`pos + d ≥ dur`, and exactly as `seekTo(pos + d)` otherwise. -/
theorem seekRelative_cases (env : Env) (d : ℚ) (st : PlayerState) :
    ((getProgress st).pos + d < 0 → seekRelative env d st = seekTo env 0 st) ∧
    (0 ≤ (getProgress st).pos + d → (getProgress st).dur ≤ (getProgress st).pos + d →
      seekRelative env d st = next env st) ∧
    (0 ≤ (getProgress st).pos + d → (getProgress st).pos + d < (getProgress st).dur →
      seekRelative env d st = seekTo env ((getProgress st).pos + d) st) := by
  unfold seekRelative
  refine ⟨?_, ?_, ?_⟩
  · intro h
    rw [if_pos h]
  · intro h0 hd
    rw [if_neg (not_lt.mpr h0), if_pos hd]
  · intro h0 hd
    rw [if_neg (not_lt.mpr h0), if_neg (not_le.mpr hd)]

/-- Witness: with no batch scheduled, progress is `(0, 0)`, so a forward
relative seek of 5 seconds lands in the `next()` branch. -/
theorem seekRelative_cases_witness :
    seekRelative sampleEnv 5 sampleState = next sampleEnv sampleState :=
  (seekRelative_cases sampleEnv 5 sampleState).2.1
    (by norm_num [getProgress, getCurrent, sampleState])
    (by norm_num [getProgress, getCurrent, sampleState])

/-! ### C7 and C10: failed rebuilds -/

/-- An oracle in which every fetch or decode fails. -/
def failEnv : Env := { fetchDecode := fun _ => Except.error ("boom") }

/-- State of the engine when a rebuild surfaces an error: the old batch was
already stopped and the new one never placed, and the loading flag was
never cleared. -/
theorem rebuild_error_state (env : Env) (s : Nat) (a : Bool)
    (st st2 : PlayerState) (e : String)
    (h : rebuildBatchFrom env s a st = (st2, some e)) :
    st2.scheduled = [] ∧ st2.isLoading = true ∧ st2.isPlaying = st.isPlaying := by
  have hre : rebuildBatchFrom env s a st =
      rebuildPhase2 env s a (rebuildPhase1 s st).2 (rebuildPhase1 s st).1 := rfl
  rw [hre] at h
  obtain ⟨p1, p2, p3, p4, p5, p6, p7, p8, p9, p10, p11⟩ := rebuildPhase1_spec s st
  unfold rebuildPhase2 at h
  obtain ⟨bc, co, hcore⟩ := decodeAll_core env (rebuildPhase1 s st).2 (rebuildPhase1 s st).1
  split at h
  · rename_i st4 e2 heq
    rw [heq] at hcore
    have h4 : st4 = { (rebuildPhase1 s st).1 with bufferCache := bc, cacheOrder := co } :=
      hcore
    injection h with ha hb
    subst ha
    refine ⟨?_, ?_, ?_⟩
    · rw [h4]
      exact p2
    · rw [h4]
      exact p3
    · rw [h4]
      exact p10
  · rename_i st4 bufs heq
    cases a <;> simp at h

/-- C7: if any fetch or decode fails during `rebuildBatchFrom`, the rebuild
aborts with the error surfaced to the caller (`some e`) and no partial
batch is left scheduled: the scheduled list is empty — the old batch was
already stopped, the new one never placed — so playback is left idle with
no batch rather than rolled back (the play flag itself is untouched). -/
theorem rebuild_error_no_partial_batch (env : Env) (s : Nat) (a : Bool)
    (st st2 : PlayerState) (e : String)
    (h : rebuildBatchFrom env s a st = (st2, some e)) :
    st2.scheduled = [] ∧ st2.isPlaying = st.isPlaying :=
  ⟨(rebuild_error_state env s a st st2 e h).1,
   (rebuild_error_state env s a st st2 e h).2.2⟩

/-- Witness: a failing oracle makes the concrete rebuild surface its error
with an empty batch. -/
theorem rebuild_error_no_partial_batch_witness :
    ({ sampleState with isLoading := true } : PlayerState).scheduled = [] ∧
    ({ sampleState with isLoading := true } : PlayerState).isPlaying =
      sampleState.isPlaying :=
  rebuild_error_no_partial_batch failEnv 0 true sampleState
    { sampleState with isLoading := true } ("boom") (by rfl)

/-- C10: an error escaping `rebuildBatchFrom` leaves `isLoading` stuck at
`true` (it is only reset on the success path), and while `isLoading` holds
every `seekTo` returns immediately with no effect (exactly the state after
the initial `ensureContext`, which is the identity when a context already
exists). -/
theorem loading_flag_stuck (env : Env) (s : Nat) (a : Bool) (p : ℚ)
    (st st2 stL : PlayerState) (e : String)
    (hfail : rebuildBatchFrom env s a st = (st2, some e))
    (hL : stL.isLoading = true) :
    st2.isLoading = true ∧
    seekTo env p stL = (ensureContext stL, none) ∧
    (stL.hasCtx = true → seekTo env p stL = (stL, none)) := by
  obtain ⟨c1, c2, c3, c4, c5, c6, c7, c8, c9, c10⟩ := ensureContext_frame stL
  have hno : seekTo env p stL = (ensureContext stL, none) := by
    simp only [seekTo]
    rw [c4, hL]
    simp
  refine ⟨(rebuild_error_state env s a st st2 e hfail).2.1, hno, ?_⟩
  intro hctx
  have hid : ensureContext stL = stL := by
    unfold ensureContext
    rw [hctx]
    simp
  rw [hno, hid]

/-- Witness: the stuck loading flag and the seek no-op at concrete inputs. -/
theorem loading_flag_stuck_witness :
    ({ sampleState with isLoading := true } : PlayerState).isLoading = true ∧
    seekTo failEnv 0 { sampleState with isLoading := true } =
      ({ sampleState with isLoading := true }, none) :=
  ⟨(loading_flag_stuck failEnv 0 true 0 sampleState
      { sampleState with isLoading := true } { sampleState with isLoading := true }
      ("boom") (by rfl) (by rfl)).1,
   (loading_flag_stuck failEnv 0 true 0 sampleState
      { sampleState with isLoading := true } { sampleState with isLoading := true }
      ("boom") (by rfl) (by rfl)).2.2 (by rfl)⟩

/-! ### C5: the prev() 3-second threshold -/

/-- C5: with a current segment in hand, `prev()` called when at most 3
clock-seconds of it have elapsed moves the cursor back one position
(mod n) and rebuilds from there; called when more than 3 seconds have
elapsed it rebuilds from the same track (`index` unchanged, every new
segment restarting with `startOffset = 0`). -/
theorem prev_threshold (env : Env) (st : PlayerState) (cur : Segment)
    (hok : EnvOk env) (hc : CacheOk env st) (hn : 1 ≤ st.songs.length)
    (hcur : getCurrent st = some cur) :
    (st.currentTime - cur.startTime ≤ 3 →
      ∃ st2, prev env st = (st2, none) ∧
        st2.idx = (st.idx + st.songs.length - 1) % st.songs.length ∧
        st2.scheduled.length = batchCount st.batchSize st.songs.length ∧
        (∀ i (hi : i < st2.scheduled.length),
          (st2.scheduled.get ⟨i, hi⟩).index =
            ((st.idx + st.songs.length - 1) % st.songs.length + i) % st.songs.length) ∧
        (∀ seg ∈ st2.scheduled, seg.startOffset = 0)) ∧
    (3 < st.currentTime - cur.startTime →
      ∃ st2, prev env st = (st2, none) ∧
        st2.idx = cur.index ∧
        st2.scheduled.length = batchCount st.batchSize st.songs.length ∧
        (∀ i (hi : i < st2.scheduled.length),
          (st2.scheduled.get ⟨i, hi⟩).index = (cur.index + i) % st.songs.length) ∧
        (∀ seg ∈ st2.scheduled, seg.startOffset = 0)) := by
  have hpe : prev env st =
      (if 3 < st.currentTime - cur.startTime then rebuildBatchFrom env cur.index true st
       else prevRebuild env st) := by
    simp only [prev, hcur]
  constructor
  · intro hle
    rw [hpe, if_neg (not_lt.mpr hle)]
    unfold prevRebuild
    have hc2 : CacheOk env
        { st with idx := (st.idx + st.songs.length - 1) % st.songs.length } := hc
    obtain ⟨st2, r1, r2, r3, r4, r5, r6, r7, r8, r9, r10, r11, r12⟩ :=
      rebuild_ok env ((st.idx + st.songs.length - 1) % st.songs.length)
        (st.isPlaying || (st.hasCtx && st.ctxRunning))
        { st with idx := (st.idx + st.songs.length - 1) % st.songs.length } hok hc2 hn
    exact ⟨st2, r1, r8, r2, r3, r5⟩
  · intro hgt
    rw [hpe, if_pos hgt]
    obtain ⟨st2, r1, r2, r3, r4, r5, r6, r7, r8, r9, r10, r11, r12⟩ :=
      rebuild_ok env cur.index true st hok hc hn
    exact ⟨st2, r1, r8, r2, r3, r5⟩

/-- A currently playing segment for the prev() witness: the clock at 5 is
inside `[0, 10)` and more than 3 seconds past its start. -/
def wCurSeg : Segment :=
  { index := 1, startTime := 0, endTime := 10, duration := 10, startOffset := 0 }

/-- The player state for the prev() witness. -/
def wPrevState : PlayerState :=
  { sampleState with scheduled := [wCurSeg], currentTime := 5, idx := 1 }

/-- Witness: with 5 seconds elapsed (> 3), `prev()` rebuilds from the same
track index. -/
theorem prev_threshold_witness :
    ∃ st2, prev sampleEnv wPrevState = (st2, none) ∧ st2.idx = wCurSeg.index := by
  obtain ⟨st2, r1, r2, _⟩ := (prev_threshold sampleEnv wPrevState wCurSeg sampleEnv_ok
    (cacheOk_nil sampleEnv wPrevState rfl) (by decide) (by rfl)).2
    (by simp [wPrevState, wCurSeg, sampleState]; decide)
  exact ⟨st2, r1, r2⟩

/-! ### C9: getCurrent during the lead time -/

/-- The first-match search of `getCurrent` returns the unique containing
segment when the batch's segments are pairwise ordered end-before-start. -/
theorem find_first_containing (t : ℚ) :
    ∀ (l : List Segment) (seg : Segment),
      seg ∈ l →
      l.Pairwise (fun a b => a.endTime ≤ b.startTime) →
      seg.startTime ≤ t → t < seg.endTime →
      l.find? (fun x => decide (x.startTime ≤ t) && decide (t < x.endTime)) = some seg := by
  intro l
  induction l with
  | nil => intro seg h; simp at h
  | cons a rest ih =>
    intro seg hmem hpair hs he
    rcases List.mem_cons.mp hmem with h1 | h1
    · subst h1
      rw [List.find?_cons_of_pos]
      simp [hs, he]
    · have ha : a.endTime ≤ seg.startTime := (List.pairwise_cons.mp hpair).1 seg h1
      rw [List.find?_cons_of_neg]
      · exact ih seg h1 (List.pairwise_cons.mp hpair).2 hs he
      · simp only [Bool.and_eq_true, decide_eq_true_eq, not_and]
        intro h1a h2a
        exact absurd h2a (not_lt.mpr (le_trans ha hs))

/-- C9: for a non-empty batch, when the clock is still earlier than the
first segment's `startTime` (the lead time right after scheduling),
`getCurrent` returns the last segment of the batch, not the first; and
when the clock lies inside some segment's `[startTime, endTime)` (the
batch being ordered, as every scheduled batch is), that segment is
returned. -/
theorem getCurrent_lead_and_containment (st : PlayerState) (hctx : st.hasCtx = true) :
    (∀ s0, st.scheduled.head? = some s0 →
      (∀ seg ∈ st.scheduled, s0.startTime ≤ seg.startTime) →
      st.currentTime < s0.startTime →
      getCurrent st = st.scheduled.getLast?) ∧
    (∀ seg, seg ∈ st.scheduled →
      st.scheduled.Pairwise (fun a b => a.endTime ≤ b.startTime) →
      seg.startTime ≤ st.currentTime → st.currentTime < seg.endTime →
      getCurrent st = some seg) := by
  constructor
  · intro s0 hhead hmin hlt
    have hne : st.scheduled.isEmpty = false := by
      cases hsch : st.scheduled with
      | nil => rw [hsch] at hhead; simp at hhead
      | cons a l => simp
    have hfind : st.scheduled.find?
        (fun x => decide (x.startTime ≤ st.currentTime) && decide (st.currentTime < x.endTime)) =
          none := by
      apply List.find?_eq_none.mpr
      intro x hx
      simp only [Bool.and_eq_true, decide_eq_true_eq, not_and]
      intro hcontra
      exact absurd hcontra (not_le.mpr (lt_of_lt_of_le hlt (hmin x hx)))
    simp [getCurrent, hctx, hne, hfind]
  · intro seg hmem hpair hs he
    have hne : st.scheduled.isEmpty = false := by
      cases hsch : st.scheduled with
      | nil => rw [hsch] at hmem; simp at hmem
      | cons a l => simp
    simp [getCurrent, hctx, hne,
      find_first_containing st.currentTime st.scheduled seg hmem hpair hs he]

/-- First and second segments for the getCurrent witnesses. -/
def wSegA : Segment :=
  { index := 0, startTime := 1, endTime := 3, duration := 2, startOffset := 0 }

def wSegB : Segment :=
  { index := 1, startTime := 3, endTime := 7, duration := 4, startOffset := 0 }

/-- A player whose clock (0) is still before the first segment starts. -/
def wLeadState : PlayerState :=
  { sampleState with scheduled := [wSegA, wSegB], currentTime := 0 }

/-- A player whose clock (4) lies inside the second segment. -/
def wInState : PlayerState :=
  { sampleState with scheduled := [wSegA, wSegB], currentTime := 4 }

/-- Witness: during the lead time the last segment is reported; with the
clock inside the second segment, that segment is reported. -/
theorem getCurrent_lead_and_containment_witness :
    getCurrent wLeadState = wLeadState.scheduled.getLast? ∧
    getCurrent wInState = some wSegB :=
  ⟨(getCurrent_lead_and_containment wLeadState (by rfl)).1 wSegA (by rfl)
      (by decide) (by decide),
   (getCurrent_lead_and_containment wInState (by rfl)).2 wSegB (by decide)
      (by decide) (by decide) (by decide)⟩

/-! ### C6: cache capacity bound and FIFO eviction -/

/-- A key absent from the order list is absent from the map (under the
map-mirrors-order invariant). -/
theorem cacheGet_none (c : List (String × ℚ)) (o : List String) (k : String)
    (hmap : c.map Prod.fst = o) (hfresh : k ∉ o) : cacheGet c k = none := by
  unfold cacheGet
  have hfind : c.find? (fun p => p.1 == k) = none := by
    apply List.find?_eq_none.mpr
    intro p hp
    have hmem : p.1 ∈ o := hmap ▸ List.mem_map_of_mem Prod.fst hp
    simp only [beq_iff_eq]
    exact fun h => hfresh (h ▸ hmem)
  rw [hfind]

/-- Deleting the front key of the order list from the map removes exactly
the map's first entry. -/
theorem mapDelete_head (c : List (String × ℚ)) (k : String) (R : List String)
    (hmap : c.map Prod.fst = k :: R) (hnotin : k ∉ R) :
    mapDelete c k = c.tail := by
  cases c with
  | nil => simp at hmap
  | cons p cs =>
    simp only [List.map_cons, List.cons.injEq] at hmap
    obtain ⟨hp, hcs⟩ := hmap
    have hq : ∀ q ∈ cs, (!(q.1 == k)) = true := by
      intro q hqm
      have hmem : q.1 ∈ R := hcs ▸ List.mem_map_of_mem Prod.fst hqm
      have hne : q.1 ≠ k := fun h => hnotin (h ▸ hmem)
      simp [hne]
    show List.filter (fun q => !(q.1 == k)) (p :: cs) = cs
    rw [List.filter_cons_of_neg (by simp [hp]), List.filter_eq_self.mpr hq]

/-- The eviction loop is the identity at or under capacity. -/
theorem evictWhile_le (m : Nat) (o : List String) (c : List (String × ℚ))
    (h : o.length ≤ m) : evictWhile m o c = (o, c) := by
  cases o with
  | nil => rfl
  | cons a rest =>
    unfold evictWhile
    rw [if_neg (Nat.not_lt.mpr h)]

/-- One past capacity, the eviction loop drops exactly the front element of
both the order list and (under the invariant) the map. -/
theorem evict_step (m : Nat) (o : List String) (c : List (String × ℚ))
    (hmap : c.map Prod.fst = o) (hnd : o.Nodup) (hlen : o.length ≤ m + 1) :
    evictWhile m o c = (o.drop (o.length - m), c.drop (o.length - m)) := by
  rcases Nat.lt_or_ge m o.length with hlt | hge
  · have hlen1 : o.length = m + 1 := Nat.le_antisymm hlen hlt
    cases o with
    | nil => simp at hlen1
    | cons a rest =>
      have hnotin : a ∉ rest := (List.nodup_cons.mp hnd).1
      have htail : mapDelete c a = c.tail := mapDelete_head c a rest hmap hnotin
      have hrl : rest.length ≤ m := by
        simp only [List.length_cons] at hlen1
        omega
      unfold evictWhile
      rw [if_pos hlt, htail, evictWhile_le m rest c.tail hrl]
      have hdrop : (a :: rest).length - m = 1 := by
        simp only [List.length_cons] at hlen1 ⊢
        omega
      rw [hdrop, List.drop_one, List.drop_one]
      simp
  · rw [evictWhile_le m o c hge, Nat.sub_eq_zero_of_le hge]
    simp

/-- A cache hit returns the cached buffer and leaves the state untouched
(reads do not refresh the eviction order). -/
theorem load_hit (env : Env) (u : String) (st : PlayerState) (v : ℚ)
    (h : cacheGet st.bufferCache u = some v) :
    loadDecodedBuffer env u st = (st, Except.ok v) := by
  unfold loadDecodedBuffer
  rw [h]

/-- A cache miss with a successful decode appends the key and evicts. -/
theorem load_miss (env : Env) (k : String) (st : PlayerState) (d : ℚ)
    (hmiss : cacheGet st.bufferCache k = none)
    (hd : env.fetchDecode k = Except.ok d)
    (o2 : List String) (c2 : List (String × ℚ))
    (hev : evictWhile st.maxCached (st.cacheOrder ++ [k])
      (st.bufferCache ++ [(k, d)]) = (o2, c2)) :
    loadDecodedBuffer env k st =
      ({ st with bufferCache := c2, cacheOrder := o2 }, Except.ok d) := by
  unfold loadDecodedBuffer
  rw [hmiss, hd]
  simp only [hev]

/-- Inserting a run of fresh, pairwise-distinct keys into a well-formed
cache leaves exactly the last `maxCached` of the combined key sequence,
in order: eviction is FIFO by insertion. -/
theorem insertAll_fresh (env : Env) (hok : EnvOk env) :
    ∀ (ks : List String) (st : PlayerState),
      st.bufferCache.map Prod.fst = st.cacheOrder →
      st.cacheOrder.Nodup →
      ks.Nodup →
      (∀ x ∈ ks, x ∉ st.cacheOrder) →
      st.cacheOrder.length ≤ st.maxCached →
      (insertAll env ks st).cacheOrder =
        (st.cacheOrder ++ ks).drop (st.cacheOrder.length + ks.length - st.maxCached) ∧
      (insertAll env ks st).bufferCache.map Prod.fst = (insertAll env ks st).cacheOrder ∧
      (insertAll env ks st).cacheOrder.Nodup ∧
      (insertAll env ks st).cacheOrder.length ≤ st.maxCached ∧
      (insertAll env ks st).maxCached = st.maxCached := by
  intro ks
  induction ks with
  | nil =>
    intro st hmap hnd _ _ hlen
    have h0 : st.cacheOrder.length + ([] : List String).length - st.maxCached = 0 := by
      simp only [List.length_nil]
      omega
    refine ⟨?_, hmap, hnd, hlen, rfl⟩
    rw [h0]
    simp [insertAll]
  | cons k rest ih =>
    intro st hmap hnd hknd hfresh hlen
    obtain ⟨d, hd⟩ := hok k
    have hk0 : k ∉ st.cacheOrder := hfresh k (List.mem_cons_self k rest)
    have hmiss : cacheGet st.bufferCache k = none := cacheGet_none _ _ _ hmap hk0
    have hmapk : (st.bufferCache ++ [(k, d)]).map Prod.fst = st.cacheOrder ++ [k] := by
      simp [hmap]
    have hndk : (st.cacheOrder ++ [k]).Nodup := by
      rw [List.nodup_append]
      exact ⟨hnd, List.nodup_singleton k,
        by simpa [List.disjoint_singleton] using hk0⟩
    have hlenk : (st.cacheOrder ++ [k]).length ≤ st.maxCached + 1 := by
      simp only [List.length_append, List.length_singleton]
      omega
    have hstep := evict_step st.maxCached (st.cacheOrder ++ [k])
      (st.bufferCache ++ [(k, d)]) hmapk hndk hlenk
    have hload := load_miss env k st d hmiss hd _ _ hstep
    have hmap1 : (((st.bufferCache ++ [(k, d)]).drop
          ((st.cacheOrder ++ [k]).length - st.maxCached)).map Prod.fst) =
        ((st.cacheOrder ++ [k]).drop ((st.cacheOrder ++ [k]).length - st.maxCached)) := by
      rw [List.map_drop, hmapk]
    have hnd1 : ((st.cacheOrder ++ [k]).drop
        ((st.cacheOrder ++ [k]).length - st.maxCached)).Nodup :=
      List.Nodup.sublist (List.drop_sublist _ _) hndk
    have hknd1 : rest.Nodup := (List.nodup_cons.mp hknd).2
    have hfresh1 : ∀ x ∈ rest, x ∉ (st.cacheOrder ++ [k]).drop
        ((st.cacheOrder ++ [k]).length - st.maxCached) := by
      intro x hx hmem
      have hx2 : x ∈ st.cacheOrder ++ [k] := List.mem_of_mem_drop hmem
      rcases List.mem_append.mp hx2 with h2 | h2
      · exact hfresh x (List.mem_cons_of_mem k hx) h2
      · simp only [List.mem_singleton] at h2
        exact (List.nodup_cons.mp hknd).1 (h2 ▸ hx)
    have hlen1 : ((st.cacheOrder ++ [k]).drop
        ((st.cacheOrder ++ [k]).length - st.maxCached)).length ≤ st.maxCached := by
      rw [List.length_drop]
      omega
    obtain ⟨g1, g2, g3, g4, g5⟩ := ih
      { st with
        bufferCache := (st.bufferCache ++ [(k, d)]).drop
          ((st.cacheOrder ++ [k]).length - st.maxCached)
        cacheOrder := (st.cacheOrder ++ [k]).drop
          ((st.cacheOrder ++ [k]).length - st.maxCached) }
      hmap1 hnd1 hknd1 hfresh1 hlen1
    have hfold : insertAll env (k :: rest) st = insertAll env rest
        { st with
          bufferCache := (st.bufferCache ++ [(k, d)]).drop
            ((st.cacheOrder ++ [k]).length - st.maxCached)
          cacheOrder := (st.cacheOrder ++ [k]).drop
            ((st.cacheOrder ++ [k]).length - st.maxCached) } := by
      simp only [insertAll, List.foldl_cons]
      rw [hload]
    refine ⟨?_, ?_, ?_, ?_, ?_⟩
    · rw [hfold, g1]
      have hJ : (st.cacheOrder ++ [k]).length - st.maxCached ≤
          (st.cacheOrder ++ [k]).length := Nat.sub_le _ _
      rw [← List.drop_append_of_le_length hJ, List.drop_drop]
      simp only [List.append_assoc, List.singleton_append]
      congr 1
      simp only [List.length_drop, List.length_append, List.length_singleton,
        List.length_cons, List.length_nil]
      omega
    · rw [hfold]
      exact g2
    · rw [hfold]
      exact g3
    · rw [hfold]
      exact g4
    · rw [hfold]
      exact g5

/-- A key present in the order list is retrievable from the map (under the
map-mirrors-order invariant). -/
theorem cacheGet_isSome (c : List (String × ℚ)) (o : List String) (u : String)
    (hmap : c.map Prod.fst = o) (hmem : u ∈ o) : cacheGet c u ≠ none := by
  subst hmap
  obtain ⟨p, hp, hpe⟩ := List.mem_map.mp hmem
  unfold cacheGet
  cases hfind : c.find? (fun q => q.1 == u) with
  | some q => simp
  | none =>
    have hnp := List.find?_eq_none.mp hfind p hp
    rw [hpe] at hnp
    simp at hnp

/-- C6: under the cache well-formedness invariant (the map's keys mirror
the insertion-order list, which holds from construction on), a load never
leaves more than `maxCached` entries in either structure; a cache hit
returns the buffer with the state untouched (reads do not refresh the
order); and after inserting `maxCached + 1` distinct keys through
`loadDecodedBuffer` into an empty cache, the first-inserted key is no
longer retrievable without a re-fetch (FIFO eviction by insertion). -/
theorem cache_bound_fifo (env : Env) (u : String) (v : ℚ) (st : PlayerState)
    (ks : List String) (k0 : String) (rest : List String)
    (hok : EnvOk env)
    (hmap : st.bufferCache.map Prod.fst = st.cacheOrder)
    (hnd : st.cacheOrder.Nodup)
    (hlen : st.cacheOrder.length ≤ st.maxCached) :
    ((loadDecodedBuffer env u st).1.cacheOrder.length ≤ st.maxCached ∧
     (loadDecodedBuffer env u st).1.bufferCache.length ≤ st.maxCached) ∧
    (cacheGet st.bufferCache u = some v →
      loadDecodedBuffer env u st = (st, Except.ok v)) ∧
    (ks = k0 :: rest → ks.Nodup → ks.length = st.maxCached + 1 →
      st.bufferCache = [] → st.cacheOrder = [] →
      cacheGet (insertAll env ks st).bufferCache k0 = none) := by
  have hclen : st.bufferCache.length = st.cacheOrder.length := by
    rw [← hmap, List.length_map]
  refine ⟨?_, fun h => load_hit env u st v h, ?_⟩
  · unfold loadDecodedBuffer
    split
    · exact ⟨hlen, by rw [hclen]; exact hlen⟩
    · rename_i hmiss
      split
      · exact ⟨hlen, by rw [hclen]; exact hlen⟩
      · rename_i d hd
        have hfreshu : u ∉ st.cacheOrder := fun hmem =>
          cacheGet_isSome st.bufferCache st.cacheOrder u hmap hmem hmiss
        have hmapk : (st.bufferCache ++ [(u, d)]).map Prod.fst =
            st.cacheOrder ++ [u] := by
          simp [hmap]
        have hndk : (st.cacheOrder ++ [u]).Nodup := by
          rw [List.nodup_append]
          exact ⟨hnd, List.nodup_singleton u,
            by simpa [List.disjoint_singleton] using hfreshu⟩
        have hlenk : (st.cacheOrder ++ [u]).length ≤ st.maxCached + 1 := by
          simp only [List.length_append, List.length_singleton]
          omega
        have hstep := evict_step st.maxCached (st.cacheOrder ++ [u])
          (st.bufferCache ++ [(u, d)]) hmapk hndk hlenk
        constructor
        · simp only [hstep]
          rw [List.length_drop]
          omega
        · simp only [hstep]
          rw [List.length_drop]
          simp only [List.length_append, List.length_singleton]
          omega
  · intro hks hknd hklen hbc hco
    obtain ⟨g1, g2, g3, g4, g5⟩ := insertAll_fresh env hok ks st hmap hnd hknd
      (by rw [hco]; intro x hx h; simp at h) (by rw [hco]; simp)
    subst hks
    have hklen2 : rest.length + 1 = st.maxCached + 1 := by simpa using hklen
    rw [hco] at g1
    simp only [List.length_nil, List.nil_append, Nat.zero_add, List.length_cons] at g1
    have hone : rest.length + 1 - st.maxCached = 1 := by omega
    rw [hone, List.drop_one, List.tail_cons] at g1
    apply cacheGet_none (insertAll env (k0 :: rest) st).bufferCache
      (insertAll env (k0 :: rest) st).cacheOrder k0 g2
    rw [g1]
    exact (List.nodup_cons.mp hknd).1

/-- Cache state with a single cached entry, for the hit conjunct. -/
def wCacheHit : PlayerState :=
  { sampleState with bufferCache := [("a", 10)], cacheOrder := ["a"] }

/-- Witness: nine distinct keys inserted into the empty 8-slot cache evict
the first-inserted one; a hit returns the cached buffer with the state
untouched; a further load keeps the capacity bound. -/
theorem cache_bound_fifo_witness :
    cacheGet (insertAll sampleEnv ["k1", "k2", "k3", "k4", "k5", "k6", "k7", "k8", "k9"]
      sampleState).bufferCache ("k1") = none ∧
    loadDecodedBuffer sampleEnv ("a") wCacheHit = (wCacheHit, Except.ok 10) ∧
    (loadDecodedBuffer sampleEnv ("b") wCacheHit).1.cacheOrder.length ≤ 8 :=
  ⟨(cache_bound_fifo sampleEnv ("a") 0 sampleState _ ("k1") _ sampleEnv_ok rfl
      (by decide) (by decide)).2.2 rfl (by decide) (by decide) rfl rfl,
   (cache_bound_fifo sampleEnv ("a") 10 wCacheHit [] ("z") [] sampleEnv_ok rfl
      (by decide) (by decide)).2.1 (by rfl),
   (cache_bound_fifo sampleEnv ("b") 0 wCacheHit [] ("z") [] sampleEnv_ok rfl
      (by decide) (by decide)).1.1⟩

/-! ### C3: the shape of a seek -/

/-- Success specification of the seekTo slot loop: one fresh back-to-back
segment per loop value `i`, with track `(songIdx + i) % n` and
`startOffset = 0`. -/
theorem seekLoop_ok (env : Env) (si : Nat) (hok : EnvOk env) :
    ∀ (is : List Nat) (t : ℚ) (st : PlayerState),
      CacheOk env st → 1 ≤ st.songs.length →
      ∃ st2 segs, seekLoop env si is t st = (st2, none) ∧
        st2.scheduled = st.scheduled ++ segs ∧
        segs.length = is.length ∧
        chainFrom t segs ∧
        (∀ j, (segs.get? j).map Segment.index =
          (is.get? j).map (fun i => (si + i) % st.songs.length)) ∧
        (∀ seg ∈ segs, seg.startOffset = 0) ∧
        st2.songs = st.songs ∧ st2.idx = st.idx ∧ st2.isPlaying = st.isPlaying ∧
        st2.ctxRunning = st.ctxRunning ∧ st2.currentTime = st.currentTime ∧
        CacheOk env st2 := by
  intro is
  induction is with
  | nil =>
    intro t st hc hn
    exact ⟨st, [], rfl, by simp, rfl, trivial, by simp, by simp,
      rfl, rfl, rfl, rfl, rfl, hc⟩
  | cons i rest ih =>
    intro t st hc hn
    have hidx : (si + i) % st.songs.length < st.songs.length :=
      Nat.mod_lt _ (by omega)
    have hurl : st.songs.get? ((si + i) % st.songs.length) =
        some (st.songs.get ⟨(si + i) % st.songs.length, hidx⟩) := List.get?_eq_get hidx
    obtain ⟨d, st1, hload, hfd, hc1⟩ :=
      load_ok env (st.songs.get ⟨(si + i) % st.songs.length, hidx⟩) st hok hc
    obtain ⟨bc, co, hcore⟩ :=
      load_core env (st.songs.get ⟨(si + i) % st.songs.length, hidx⟩) st
    rw [hload] at hcore
    have h1 : st1 = { st with bufferCache := bc, cacheOrder := co } := hcore
    have hn1 : 1 ≤ ({ st1 with scheduled := st1.scheduled ++
        [Segment.mk ((si + i) % st.songs.length) t (t + d) d 0] } :
          PlayerState).songs.length := by
      rw [h1]
      exact hn
    obtain ⟨st2, segs, q1, q2, q3, q4, q5, q6, q7, q8, q9, q10, q11, q12⟩ :=
      ih (t + d) { st1 with scheduled := st1.scheduled ++
        [Segment.mk ((si + i) % st.songs.length) t (t + d) d 0] } hc1 hn1
    refine ⟨st2, Segment.mk ((si + i) % st.songs.length) t (t + d) d 0 :: segs,
      ?_, ?_, ?_, ?_, ?_, ?_, ?_, ?_, ?_, ?_, ?_, q12⟩
    · unfold seekLoop
      rw [hurl]
      simp only [hload, q1]
    · rw [q2]
      simp only [h1]
      simp
    · simp [q3]
    · exact ⟨rfl, q4⟩
    · intro j
      cases j with
      | zero => rfl
      | succ j2 =>
        have h5 := q5 j2
        rw [h1] at h5
        simpa using h5
    · intro seg hseg
      rcases List.mem_cons.mp hseg with h2 | h2
      · rw [h2]
      · exact q6 seg h2
    · rw [q7, h1]
    · rw [q8, h1]
    · rw [q9, h1]
    · rw [q10, h1]
    · rw [q11, h1]

/-- Under a successful oracle the slot loop cannot fail. -/
theorem seekLoop_ne_error (env : Env) (si : Nat) (hok : EnvOk env)
    (is : List Nat) (t : ℚ) (st st5 : PlayerState) (e : String)
    (heq : seekLoop env si is t st = (st5, some e))
    (hc : CacheOk env st) (hn : 1 ≤ st.songs.length) : False := by
  obtain ⟨st2, segs, q1, _⟩ := seekLoop_ok env si hok is t st hc hn
  rw [heq] at q1
  injection q1 with _ hb2
  exact Option.noConfusion hb2

/-- Equation form of `seekLoop_ok`, convenient after `split`. -/
theorem seekLoop_ok_of_eq (env : Env) (si : Nat) (hok : EnvOk env)
    (is : List Nat) (t : ℚ) (st st5 : PlayerState)
    (heq : seekLoop env si is t st = (st5, none))
    (hc : CacheOk env st) (hn : 1 ≤ st.songs.length) :
    ∃ segs, st5.scheduled = st.scheduled ++ segs ∧
      segs.length = is.length ∧
      chainFrom t segs ∧
      (∀ j, (segs.get? j).map Segment.index =
        (is.get? j).map (fun i => (si + i) % st.songs.length)) ∧
      (∀ seg ∈ segs, seg.startOffset = 0) := by
  obtain ⟨st2, segs, q1, q2, q3, q4, q5, q6, _⟩ := seekLoop_ok env si hok is t st hc hn
  rw [heq] at q1
  injection q1 with ha _
  subst ha
  exact ⟨segs, q2, q3, q4, q5, q6⟩

/-- C3 (amended): `seekTo(p)` clamps the offset to
`max(0, min(p, duration - 0.05))`, stops the old batch, schedules a first
segment for the current track with `startOffset = offset` and length
`duration - offset`, then appends `min(batchSize - 1, n - 1)` further
whole tracks — not `batchSize - 1` — with indices wrapping modulo `n` and
`startOffset = 0`, all contiguous; the cursor moves to the current
track. -/
theorem seekTo_amended_spec (env : Env) (p : ℚ) (st : PlayerState) (b : Nat)
    (url0 : String) (d0 : ℚ)
    (hok : EnvOk env) (hc : CacheOk env st)
    (hctx : st.hasCtx = true) (hld : st.isLoading = false)
    (hn : 1 ≤ st.songs.length) (hb : st.batchSize = some b)
    (hurl : st.songs.get? (currentSongIdx st) = some url0)
    (hd0 : env.fetchDecode url0 = Except.ok d0) :
    ∃ st2, seekTo env p st = (st2, none) ∧
      st2.scheduled.length = 1 + min (b - 1) (st.songs.length - 1) ∧
      (∀ i (hi : i < st2.scheduled.length),
        (st2.scheduled.get ⟨i, hi⟩).index =
          (currentSongIdx st + i) % st.songs.length) ∧
      (∃ h0 : 0 < st2.scheduled.length,
        (st2.scheduled.get ⟨0, h0⟩).startOffset = max 0 (min p (d0 - 1/20)) ∧
        (st2.scheduled.get ⟨0, h0⟩).duration = d0 ∧
        (st2.scheduled.get ⟨0, h0⟩).startTime = st.currentTime + 1/20 ∧
        (st2.scheduled.get ⟨0, h0⟩).endTime =
          st.currentTime + 1/20 + (d0 - max 0 (min p (d0 - 1/20)))) ∧
      (∀ i (hi : i < st2.scheduled.length), 1 ≤ i →
        (st2.scheduled.get ⟨i, hi⟩).startOffset = 0) ∧
      (∀ i (hi : i + 1 < st2.scheduled.length),
        (st2.scheduled.get ⟨i, Nat.lt_of_succ_lt hi⟩).endTime =
          (st2.scheduled.get ⟨i + 1, hi⟩).startTime) ∧
      st2.idx = currentSongIdx st := by
  have hid : ensureContext st = st := by
    unfold ensureContext
    rw [hctx]
    simp
  have hsi : currentSongIdx st < st.songs.length := (List.get?_eq_some.mp hurl).1
  obtain ⟨d, st1, hload, hfd, hc1⟩ := load_ok env url0 st hok hc
  have hdd : d = d0 := by
    rw [hfd] at hd0
    injection hd0
  rw [hdd] at hload
  obtain ⟨bc, co, hcore⟩ := load_core env url0 st
  rw [hload] at hcore
  have h1 : st1 = { st with bufferCache := bc, cacheOrder := co } := hcore
  rw [h1] at hload hc1
  simp only [seekTo]
  rw [hid, hld]
  simp only [Bool.false_eq_true, if_false]
  simp only [hurl, hload]
  simp only [stopAllScheduled, hb, List.nil_append]
  split
  · rename_i st5 e heq
    exact absurd heq (fun hx =>
      seekLoop_ne_error env (currentSongIdx st) hok _ _ _ st5 e hx hc1 hn)
  · rename_i st5 heq
    obtain ⟨segs, e1, e2, e3, e4, e5⟩ :=
      seekLoop_ok_of_eq env (currentSongIdx st) hok _ _ _ st5 heq hc1 hn
    simp only [List.singleton_append] at e1
    simp only [List.length_range'] at e2
    have hch : chainFrom (st.currentTime + 1/20) st5.scheduled := by
      rw [e1]
      exact ⟨rfl, e3⟩
    have hlen5 : st5.scheduled.length = 1 + min (b - 1) (st.songs.length - 1) := by
      rw [e1, List.length_cons, e2]
      omega
    have hidxf : ∀ i (hi : i < st5.scheduled.length),
        (st5.scheduled.get ⟨i, hi⟩).index =
          (currentSongIdx st + i) % st.songs.length := by
      intro i hi
      have hi1 : i < st5.scheduled.length := hi
      rw [e1] at hi1
      cases i with
      | zero =>
        have hz : (st5.scheduled.get ⟨0, hi⟩) =
            { index := currentSongIdx st, startTime := st.currentTime + 1/20
              endTime := st.currentTime + 1/20 + (d0 - max 0 (min p (d0 - 1/20)))
              duration := d0, startOffset := max 0 (min p (d0 - 1/20)) } := by
          simp [e1]
        rw [hz, Nat.add_zero, Nat.mod_eq_of_lt hsi]
      | succ j =>
        have hj : j < segs.length := by
          simp only [List.length_cons] at hi1
          omega
        have hz : (st5.scheduled.get ⟨j + 1, hi⟩) = segs.get ⟨j, hj⟩ := by
          simp [e1]
        rw [hz]
        have h4 := e4 j
        rw [List.get?_eq_get hj] at h4
        have hjr : j < min (b - 1) (st.songs.length - 1) := by omega
        rw [List.get?_eq_getElem?, List.getElem?_range' 1 1 hjr, Nat.one_mul] at h4
        simp only [Option.map_some] at h4
        rw [show 1 + j = j + 1 from Nat.add_comm 1 j] at h4
        exact Option.some_injective _ h4
    have hofff : ∀ i (hi : i < st5.scheduled.length), 1 ≤ i →
        (st5.scheduled.get ⟨i, hi⟩).startOffset = 0 := by
      intro i hi h1i
      have hi1 : i < st5.scheduled.length := hi
      rw [e1] at hi1
      cases i with
      | zero => omega
      | succ j =>
        have hj : j < segs.length := by
          simp only [List.length_cons] at hi1
          omega
        have hz : (st5.scheduled.get ⟨j + 1, hi⟩) = segs.get ⟨j, hj⟩ := by
          simp [e1]
        rw [hz]
        exact e5 _ (List.get_mem segs j hj)
    have hfirst : ∃ h0 : 0 < st5.scheduled.length,
        (st5.scheduled.get ⟨0, h0⟩).startOffset = max 0 (min p (d0 - 1/20)) ∧
        (st5.scheduled.get ⟨0, h0⟩).duration = d0 ∧
        (st5.scheduled.get ⟨0, h0⟩).startTime = st.currentTime + 1/20 ∧
        (st5.scheduled.get ⟨0, h0⟩).endTime =
          st.currentTime + 1/20 + (d0 - max 0 (min p (d0 - 1/20))) := by
      have h0 : 0 < st5.scheduled.length := by
        rw [e1]
        simp
      refine ⟨h0, ?_, ?_, ?_, ?_⟩ <;> simp [e1]
    split
    · exact ⟨_, rfl, hlen5, hidxf, hfirst, hofff,
        fun i hi => chainFrom_contig st5.scheduled _ hch i hi, rfl⟩
    · exact ⟨_, rfl, hlen5, hidxf, hfirst, hofff,
        fun i hi => chainFrom_contig st5.scheduled _ hch i hi, rfl⟩

/-- A one-track player with configured batch size 5. -/
def stC3 : PlayerState := { sampleState with songs := ["a"], batchSize := some 5 }

/-- Counterexample to C3 as stated: with playlist length 1 and batch size
5, `seekTo(0)` succeeds but schedules only 1 segment — not
`1 + (batchSize - 1) = 5` — because the code appends
`min(batchSize - 1, n - 1)` further tracks, not `batchSize - 1`. -/
theorem seekTo_slots_counterexample :
    stC3.batchSize = some 5 ∧ stC3.songs.length = 1 ∧
    (seekTo sampleEnv 0 stC3).2 = none ∧
    (seekTo sampleEnv 0 stC3).1.scheduled.length = 1 ∧
    (seekTo sampleEnv 0 stC3).1.scheduled.length ≠ 1 + (5 - 1) := by
  refine ⟨rfl, rfl, rfl, rfl, ?_⟩
  intro h
  rw [show (seekTo sampleEnv 0 stC3).1.scheduled.length = 1 from rfl] at h
  simp at h

/-- Witness for the amended seek shape: on the three-track player with
batch size 2, `seekTo(3)` schedules `1 + min(1, 2) = 2` segments. -/
theorem seekTo_amended_spec_witness :
    ∃ st2, seekTo sampleEnv 3 sampleState = (st2, none) ∧
      st2.scheduled.length = 2 ∧ st2.idx = 0 := by
  obtain ⟨st2, h1, h2, h3, h4, h5, h6, h7⟩ := seekTo_amended_spec sampleEnv 3 sampleState 2
    ("a") 10 sampleEnv_ok (cacheOk_nil sampleEnv sampleState rfl) rfl rfl
    (by decide) rfl rfl rfl
  refine ⟨st2, h1, ?_, h7⟩
  rw [h2]
  decide

/-! ### C8: superseded rebuilds are applied, not discarded -/

/-- A two-track player with batch size 1 for the interleaving scenario. -/
def stC8 : PlayerState := { sampleState with songs := ["a", "b"], batchSize := some 1 }

/-- Counterexample to C8 as stated.  The code carries no generation
counter.  Model the interleaving in which rebuild A (from track 0) runs
its synchronous prefix (`rebuildPhase1`) and suspends at its first decode
`await`; rebuild B (from track 1) then runs to completion; A resumes
(`rebuildPhase2`) with its captured indices.  A's decoded result is
applied: the final batch is B's segment followed by A's stale segment
(track indices `[1, 0]`), instead of B's batch alone (`[1]`) as a
generation-counter discard would produce. -/
theorem stale_rebuild_counterexample :
    ((rebuildPhase2 sampleEnv 0 true (rebuildPhase1 0 stC8).2
        (rebuildBatchFrom sampleEnv 1 true (rebuildPhase1 0 stC8).1).1).1.scheduled.map
      Segment.index) = [1, 0] ∧
    ((rebuildBatchFrom sampleEnv 1 true (rebuildPhase1 0 stC8).1).1.scheduled.map
      Segment.index) = [1] := by
  constructor <;> rfl

/-- C8 (amended): the code has no generation counter.  When a rebuild that
suspended at its first decode is superseded by a second rebuild that runs
to completion, the suspended rebuild's decoded segments are still applied
when it resumes — appended after the superseding batch — rather than
discarded, so the batch ends up holding both rebuilds' segments. -/
theorem stale_rebuild_applied (env : Env) (sA sB : Nat) (aA aB : Bool)
    (st : PlayerState) (hok : EnvOk env) (hc : CacheOk env st)
    (hn : 1 ≤ st.songs.length) :
    ∃ stMid stFin segsStale,
      rebuildBatchFrom env sB aB (rebuildPhase1 sA st).1 = (stMid, none) ∧
      rebuildPhase2 env sA aA (rebuildPhase1 sA st).2 stMid = (stFin, none) ∧
      stFin.scheduled = stMid.scheduled ++ segsStale ∧
      segsStale.length = batchCount st.batchSize st.songs.length ∧
      stMid.scheduled.length = batchCount st.batchSize st.songs.length := by
  obtain ⟨p1, p2, p3, p4, p5, p6, p7, p8, p9, p10, p11⟩ := rebuildPhase1_spec sA st
  have hcp : CacheOk env (rebuildPhase1 sA st).1 := by
    intro q hq
    exact hc q (by rw [← p5]; exact hq)
  have hnp : 1 ≤ (rebuildPhase1 sA st).1.songs.length := by
    rw [p1]
    exact hn
  obtain ⟨stMid, r1, r2, r3, r4, r5, r6, r7, r8, r9, r10, r11, r12⟩ :=
    rebuild_ok env sB aB (rebuildPhase1 sA st).1 hok hcp hnp
  have hlMid : ∀ i ∈ (rebuildPhase1 sA st).2, i < stMid.songs.length := by
    intro i hi
    rw [p11] at hi
    obtain ⟨j, hj, hji⟩ := List.mem_map.mp hi
    rw [← hji, r7, p1]
    exact Nat.mod_lt _ (by omega)
  obtain ⟨stFin, segs, q1, q2, q3, q4, q5, q6, q7, q8, q9, q10, q11, q12, q13, q14,
      q15, q16⟩ := rebuildPhase2_ok env sA aA (rebuildPhase1 sA st).2 stMid hok r12 hlMid
  refine ⟨stMid, stFin, segs, r1, q1, q2, ?_, ?_⟩
  · rw [q3, p11, List.length_map, List.length_range]
  · rw [r2, p4, p1]

/-- Witness: the general stale-application fact at the concrete scenario
(one-segment batches: one stale segment is appended after one fresh). -/
theorem stale_rebuild_applied_witness :
    ∃ stMid stFin segsStale,
      rebuildBatchFrom sampleEnv 1 true (rebuildPhase1 0 stC8).1 = (stMid, none) ∧
      rebuildPhase2 sampleEnv 0 true (rebuildPhase1 0 stC8).2 stMid = (stFin, none) ∧
      stFin.scheduled = stMid.scheduled ++ segsStale ∧
      segsStale.length = 1 ∧ stMid.scheduled.length = 1 := by
  obtain ⟨stMid, stFin, segsStale, w1, w2, w3, w4, w5⟩ :=
    stale_rebuild_applied sampleEnv 0 1 true true stC8 sampleEnv_ok
      (cacheOk_nil sampleEnv stC8 rfl) (by decide)
  exact ⟨stMid, stFin, segsStale, w1, w2, w3, by rw [w4]; decide, by rw [w5]; decide⟩
